import Mathlib

/-!
Verification development for the NNTools dataset-caching subsystem.

The definitions below are a shallow embedding of the caching code:
`nntools/utils/misc.py` (packed-integer image encoding),
`nntools/dataset/abstract_image_dataset.py` (shared-memory cache,
`__getitem__` index handling, `remap`, `__del__`, the `cache_option`
validator) and `nntools/dataset/cache/disk.py` (disk cache backend).
Machine integers are modelled as `Int` with explicit wrap-around where the
code reinterprets bytes; numpy arrays are nested lists of `Int`.
-/

namespace NNTools

set_option maxRecDepth 8192

/-- Element dtypes relevant to the cache: `uint8` images, the four wide
integer dtypes eligible for packed-image storage, and `flt` standing for
any other dtype (stored via the raw `.npy` path). -/
inductive Dtype where
  | u8 | u16 | i16 | u32 | i32 | flt
deriving DecidableEq, Repr

/-- Byte width of a dtype (numpy `itemsize`). -/
def Dtype.nbytes : Dtype → Nat
  | .u8 => 1
  | .u16 | .i16 => 2
  | .u32 | .i32 => 4
  | .flt => 4

/-- Whether the dtype is a signed integer type. -/
def Dtype.signed : Dtype → Bool
  | .i16 | .i32 => true
  | _ => false

/-- The dtypes accepted by `can_be_stored_as_image` for 2-D arrays
(`np.uint16, np.uint32, np.int16, np.int32` in `misc.py`). -/
def Dtype.isWideInt : Dtype → Bool
  | .u16 | .i16 | .u32 | .i32 => true
  | _ => false

/-- Value range of a dtype (two's complement for signed types). -/
def Dtype.inRange (dt : Dtype) (v : Int) : Bool :=
  decide (if dt.signed = true then
    -(2 ^ (8 * dt.nbytes - 1) : Int) ≤ v ∧ v < 2 ^ (8 * dt.nbytes - 1)
  else 0 ≤ v ∧ v < 2 ^ (8 * dt.nbytes))

/-- Little-endian base-256 digits of `u`, `w` bytes wide (the byte layout
numpy's `container.view` exposes on a little-endian machine). -/
def bytesOfNat : Nat → Nat → List Nat
  | 0, _ => []
  | w + 1, u => u % 256 :: bytesOfNat w (u / 256)

/-- Recompose a little-endian byte list into a natural number (models
`.view(original_dtype)` on the packed byte container). -/
def natOfBytes : List Nat → Nat
  | [] => 0
  | b :: bs => b + 256 * natOfBytes bs

theorem length_bytesOfNat : ∀ (w u : Nat), (bytesOfNat w u).length = w
  | 0, _ => rfl
  | w + 1, u => by simp [bytesOfNat, length_bytesOfNat w]

theorem natOfBytes_bytesOfNat : ∀ (w u : Nat), u < 256 ^ w → natOfBytes (bytesOfNat w u) = u
  | 0, u, h => by
    simp only [pow_zero, Nat.lt_one_iff] at h
    simp [bytesOfNat, natOfBytes, h]
  | w + 1, u, h => by
    have hdiv : u / 256 < 256 ^ w := by
      rw [Nat.div_lt_iff_lt_mul (by norm_num)]
      calc u < 256 ^ (w + 1) := h
        _ = 256 ^ w * 256 := by ring
    have hrec := natOfBytes_bytesOfNat w (u / 256) hdiv
    show u % 256 + 256 * natOfBytes (bytesOfNat w (u / 256)) = u
    rw [hrec]
    omega

/-- Encode one element of dtype `dt` into its `dt.nbytes` bytes (what
`convert_to_image` writes through `container.view(dtype=original_dtype)`). -/
def toBytes (dt : Dtype) (v : Int) : List Int :=
  (bytesOfNat dt.nbytes ((v % (2 ^ (8 * dt.nbytes) : Int)).toNat)).map Int.ofNat

/-- Decode `dt.nbytes` bytes back into an element of dtype `dt` (the
effect of `image.view(dtype=original_dtype)` in
`revert_image_to_original_dtype`). -/
def fromBytes (dt : Dtype) (bs : List Int) : Int :=
  let u := natOfBytes (bs.map Int.toNat)
  if dt.signed = true ∧ 2 ^ (8 * dt.nbytes - 1) ≤ u then
    (u : Int) - 2 ^ (8 * dt.nbytes)
  else (u : Int)

theorem length_toBytes (dt : Dtype) (v : Int) : (toBytes dt v).length = dt.nbytes := by
  simp [toBytes, length_bytesOfNat]

theorem fromBytes_toBytes (dt : Dtype) (v : Int) (h : dt.inRange v = true) :
    fromBytes dt (toBytes dt v) = v := by
  have hw : 0 < dt.nbytes := by cases dt <;> simp [Dtype.nbytes]
  simp only [Dtype.inRange, decide_eq_true_eq] at h
  unfold fromBytes toBytes
  rw [List.map_map]
  have hid : (Int.toNat ∘ Int.ofNat) = id := by
    funext n
    simp [Int.toNat_ofNat]
  rw [hid, List.map_id]
  have h256 : (256 : Nat) ^ dt.nbytes = 2 ^ (8 * dt.nbytes) := by
    rw [Nat.pow_mul]
  have hmpos : (0 : Int) < 2 ^ (8 * dt.nbytes) := by positivity
  have h0 : 0 ≤ v % (2 ^ (8 * dt.nbytes) : Int) := Int.emod_nonneg v (by omega)
  have h1 : v % (2 ^ (8 * dt.nbytes) : Int) < 2 ^ (8 * dt.nbytes) := Int.emod_lt_of_pos v hmpos
  have htn : (((v % (2 ^ (8 * dt.nbytes) : Int)).toNat : Int)) = v % 2 ^ (8 * dt.nbytes) :=
    Int.toNat_of_nonneg h0
  have hcastM : ((2 ^ (8 * dt.nbytes) : Nat) : Int) = (2 ^ (8 * dt.nbytes) : Int) := by
    push_cast
    rfl
  have hcastH : ((2 ^ (8 * dt.nbytes - 1) : Nat) : Int) = (2 ^ (8 * dt.nbytes - 1) : Int) := by
    push_cast
    rfl
  have hu : (v % (2 ^ (8 * dt.nbytes) : Int)).toNat < 2 ^ (8 * dt.nbytes) := by omega
  rw [natOfBytes_bytesOfNat _ _ (h256 ▸ hu)]
  have h8 : (8 * dt.nbytes - 1) + 1 = 8 * dt.nbytes := by omega
  have hsplitN : (2 ^ (8 * dt.nbytes) : Nat) = 2 * 2 ^ (8 * dt.nbytes - 1) := by
    have hp : (2 : Nat) ^ ((8 * dt.nbytes - 1) + 1) = 2 ^ (8 * dt.nbytes - 1) * 2 :=
      pow_succ 2 (8 * dt.nbytes - 1)
    rw [h8] at hp
    omega
  have hsplitI : (2 ^ (8 * dt.nbytes) : Int) = 2 * 2 ^ (8 * dt.nbytes - 1) := by
    have hp : (2 : Int) ^ ((8 * dt.nbytes - 1) + 1) = 2 ^ (8 * dt.nbytes - 1) * 2 :=
      pow_succ 2 (8 * dt.nbytes - 1)
    rw [h8] at hp
    omega
  have hHpos : (0 : Int) < 2 ^ (8 * dt.nbytes - 1) := by positivity
  cases hs : dt.signed with
  | false =>
    simp only [hs] at h
    obtain ⟨hv0, hvM⟩ := by simpa using h
    have hvmod : v % (2 ^ (8 * dt.nbytes) : Int) = v := Int.emod_eq_of_lt hv0 hvM
    rw [if_neg]
    · omega
    · rintro ⟨hbad, -⟩
      exact Bool.false_ne_true hbad
  | true =>
    simp only [hs] at h
    obtain ⟨hlo, hhi⟩ := by simpa using h
    by_cases hv0 : 0 ≤ v
    · have hvM : v < 2 ^ (8 * dt.nbytes) := by omega
      have hvmod : v % (2 ^ (8 * dt.nbytes) : Int) = v := Int.emod_eq_of_lt hv0 hvM
      rw [if_neg]
      · omega
      · rintro ⟨-, hge⟩
        omega
    · have hvmod : v % (2 ^ (8 * dt.nbytes) : Int) = v + 2 ^ (8 * dt.nbytes) := by
        have hstep : (v + 2 ^ (8 * dt.nbytes) * 1) % (2 ^ (8 * dt.nbytes) : Int)
            = v % 2 ^ (8 * dt.nbytes) := Int.add_mul_emod_self_left v (2 ^ (8 * dt.nbytes)) 1
        have hin : (v + 2 ^ (8 * dt.nbytes)) % (2 ^ (8 * dt.nbytes) : Int)
            = v + 2 ^ (8 * dt.nbytes) := by
          apply Int.emod_eq_of_lt
          · omega
          · omega
        calc v % (2 ^ (8 * dt.nbytes) : Int)
            = (v + 2 ^ (8 * dt.nbytes) * 1) % (2 ^ (8 * dt.nbytes) : Int) := hstep.symm
          _ = (v + 2 ^ (8 * dt.nbytes)) % (2 ^ (8 * dt.nbytes) : Int) := by ring_nf
          _ = v + 2 ^ (8 * dt.nbytes) := hin
      rw [if_pos]
      · omega
      · refine ⟨rfl, ?_⟩
        omega

/-- Channel padding performed by `convert_to_image`: 2-byte containers get a
third all-zero channel appended (`np.concatenate([container, zeros])`);
4-byte containers are left as 4 channels. -/
def padChannels (dt : Dtype) (bs : List Int) : List Int :=
  if dt.nbytes = 2 then bs ++ [0] else bs

/-- `misc.convert_to_image`: reinterpret each element of a 2-D wide-integer
array as its little-endian bytes and lay them out as the channels of an
8-bit image (2 bytes padded to 3 channels, 4 bytes kept as 4 channels). -/
def convert_to_image (array : List (List Int)) (original_dtype : Dtype) :
    List (List (List Int)) :=
  array.map fun row => row.map fun e => padChannels original_dtype (toBytes original_dtype e)

/-- `misc.revert_image_to_original_dtype`: for 16-bit dtypes keep only the
first two channels (`image[:, :, :2]`), then reinterpret each pixel's bytes
as one element of the original dtype. -/
def revert_image_to_original_dtype (image : List (List (List Int))) (original_dtype : Dtype) :
    List (List Int) :=
  image.map fun row => row.map fun px =>
    fromBytes original_dtype (if original_dtype.nbytes = 2 then px.take 2 else px)

/-- Per-element round trip through the packed-image representation. -/
theorem revert_convert_elem (dt : Dtype) (e : Int) (h : dt.inRange e = true) :
    fromBytes dt (if dt.nbytes = 2 then (padChannels dt (toBytes dt e)).take 2
      else padChannels dt (toBytes dt e)) = e := by
  have hlen : (toBytes dt e).length = dt.nbytes := length_toBytes dt e
  by_cases h2 : dt.nbytes = 2
  · rw [if_pos h2]
    unfold padChannels
    rw [if_pos h2]
    have htake : ((toBytes dt e) ++ [0]).take 2 = toBytes dt e := by
      rw [show (2 : Nat) = (toBytes dt e).length from (hlen.trans h2).symm]
      exact List.take_left _ _
    rw [htake]
    exact fromBytes_toBytes dt e h
  · rw [if_neg h2]
    unfold padChannels
    rw [if_neg h2]
    exact fromBytes_toBytes dt e h

/-- One row of the packed-image round trip. -/
theorem revert_convert_row (dt : Dtype) : ∀ (row : List Int),
    (∀ e ∈ row, dt.inRange e = true) →
    ((row.map fun e => padChannels dt (toBytes dt e)).map fun px =>
      fromBytes dt (if dt.nbytes = 2 then px.take 2 else px)) = row
  | [], _ => rfl
  | e :: es, h => by
    simp only [List.map_cons]
    rw [revert_convert_elem dt e (h e (List.mem_cons_self e es)),
      revert_convert_row dt es (fun x hx => h x (List.mem_cons_of_mem e hx))]

/-- Whole-array round trip: decoding the packed-image encoding of a 2-D
array restores the array exactly.  Shared by the packed-storage branch of
the disk cache model. -/
theorem revert_convert (dt : Dtype) : ∀ (a : List (List Int)),
    (a.all fun row => row.all fun e => dt.inRange e) = true →
    revert_image_to_original_dtype (convert_to_image a dt) dt = a
  | [], _ => rfl
  | row :: rest, h => by
    simp only [List.all_cons, Bool.and_eq_true] at h
    obtain ⟨hrow, hrest⟩ := h
    unfold revert_image_to_original_dtype convert_to_image
    simp only [List.map_cons, List.map_map, List.cons.injEq, Function.comp_apply]
    constructor
    · rw [← List.map_map]
      exact revert_convert_row dt row (List.all_eq_true.mp hrow)
    · have hrec := revert_convert dt rest hrest
      unfold revert_image_to_original_dtype convert_to_image at hrec
      rw [List.map_map] at hrec
      exact hrec

/-- A field value of a sample: a 2-D array, a 3-D array (H × W × C), or a
scalar (e.g. a classification label pulled from the ground-truth table). -/
inductive Val where
  | arr2 (dt : Dtype) (data : List (List Int))
  | arr3 (dt : Dtype) (data : List (List (List Int)))
  | scalar (v : Int)
deriving DecidableEq, Repr

/-- `isinstance(v, np.ndarray)` in the code: true for array values. -/
def Val.isArr : Val → Bool
  | .scalar _ => false
  | _ => true

/-- The shape-and-dtype signature of a value (numpy `shape` + `dtype`). -/
inductive ValShape where
  | s2 (dt : Dtype) (rows : List Nat)
  | s3 (dt : Dtype) (rows : List (List Nat))
  | sc
deriving DecidableEq, Repr

def Val.vshape : Val → ValShape
  | .arr2 dt d => .s2 dt (d.map List.length)
  | .arr3 dt d => .s3 dt (d.map fun r => r.map List.length)
  | .scalar _ => .sc

/-- All array elements lie in the range of the value's dtype. -/
def Val.wf : Val → Bool
  | .arr2 dt d => d.all fun row => row.all fun e => dt.inRange e
  | .arr3 dt d => d.all fun r => r.all fun row => row.all fun e => dt.inRange e
  | .scalar _ => true

/-- The all-zero array of the same shape and dtype (the contents of a
freshly zero-initialized shared-memory slot). -/
def Val.zeroLike : Val → Val
  | .arr2 dt d => .arr2 dt (d.map fun row => row.map fun _ => 0)
  | .arr3 dt d => .arr3 dt (d.map fun r => r.map fun row => row.map fun _ => 0)
  | .scalar _ => .scalar 0

theorem vshape_eq_sc_iff (v : Val) : v.vshape = ValShape.sc ↔ v.isArr = false := by
  cases v <;> simp [Val.vshape, Val.isArr]

/-- The sample source of a dataset, fixed for the backend's lifetime:
`nb` samples; `sample i` is `precompose_data(load_image(i))`, the
pre-cache sample the backends store and must reproduce; `gts p i` is the
in-memory ground-truth table entry for field position `p`
(`self.d.gts[k][item]`), consulted by the disk backend for non-array
fields.  Fields are identified positionally, in schema order. -/
structure Source where
  nb : Nat
  sample : Nat → List Val
  gts : Nat → Nat → Val

/-- The schema sample: the first materialized sample, whose shapes and
dtypes size the cache (`arrays = precompose_data(load_image(0))`). -/
def Source.schema (src : Source) : List Val := src.sample 0

/-- A sample conforms to the schema: same field count and, per field, the
same shape and dtype. -/
def confWith (schema vs : List Val) : Bool :=
  decide (vs.map Val.vshape = schema.map Val.vshape)

/-- Schema-conformance plus dtype-range well-formedness of all samples
(the spec's SchemaViolation-free assumption on the sample source). -/
def Source.ok (src : Source) : Bool :=
  (List.range src.nb).all fun i =>
    confWith src.schema (src.sample i) && (src.sample i).all Val.wf

/-- All schema fields are array-valued (no scalar fields). -/
def Source.allArrays (src : Source) : Bool :=
  src.schema.all Val.isArr

/-- Errors surfaced by the embedded operations. -/
inductive Err where
  | stopIteration | indexError | keyError | valueError | readError
deriving DecidableEq, Repr

/-! ### Shared-memory backend (`AbstractImageDataset`) -/

/-- The shared-memory cache state: the cached-item bitmap
(`self._cache_items`, one bool per item, living in the shared region) and,
per schema field, the per-item slots of its array
(`self.shared_arrays[k][i]`).  For a scalar field the "slots" model the
process-local `np.ndarray(nb_samples, dtype=type(arr))` buffer, which is
never shared and never initialized. -/
structure SharedMem where
  bitmap : List Bool
  slots : List (List Val)
deriving DecidableEq, Repr

/-- `AbstractImageDataset.init_cache`, acting on the (possibly already
populated) named shared regions: whether this process creates the regions
or attaches to existing ones, it runs `self._cache_items[:] = 0` and
`shared_array[:] = 0`, so the previous contents `prev` are discarded and
every region is zeroed.  `garb p i` is the indeterminate content of the
uninitialized process-local buffer allocated for a scalar field `p`. -/
def init_cache (src : Source) (garb : Nat → Nat → Int) (prev : SharedMem) : SharedMem :=
  let _ := prev
  { bitmap := List.replicate src.nb false
    slots := (List.range src.schema.length).map fun p =>
      match src.schema.getD p (Val.scalar 0) with
      | .scalar _ => (List.range src.nb).map fun i => Val.scalar (garb p i)
      | v => List.replicate src.nb v.zeroLike }

/-- The per-field write loop of `load_array`'s miss path:
`self.shared_arrays[k][item, ...] = array[...]`.  A 2-D or 3-D array
replaces the slot at `item`; a scalar value hits the
`self.shared_arrays[k][item, :, :, :]` indexing (the `else` branch) on a
1-D buffer and raises IndexError.  A field-count mismatch with the shared
arrays is a KeyError. -/
def writeCols (item : Nat) : List (List Val) → List Val → Except Err (List (List Val))
  | [], [] => .ok []
  | col :: cols, v :: vs =>
    match v with
    | .scalar _ => .error .indexError
    | v => do
      let rest ← writeCols item cols vs
      .ok (col.set item v :: rest)
  | _, _ => .error .keyError

/-- `AbstractImageDataset.load_array` with `use_cache = True` and the cache
already initialized: on a bitmap hit return the slice at `item` of every
shared array; on a miss compute `precompose_data(load_image(item))`, write
each field into its shared slot, set the bitmap entry, and return the
freshly computed sample. -/
def load_array (src : Source) (s : SharedMem) (item : Nat) : Except Err (List Val × SharedMem) :=
  if s.bitmap.getD item false then
    .ok (s.slots.map fun col => col.getD item (Val.scalar 0), s)
  else do
    let arrays := src.sample item
    let slots2 ← writeCols item s.slots arrays
    .ok (arrays, ⟨s.bitmap.set item true, slots2⟩)

/-- Coherence invariant of the shared-memory state: structural sizes match
the dataset, and every item whose bitmap entry is set holds exactly the
pre-cache sample in its slots. -/
def shmInv (src : Source) (s : SharedMem) : Bool :=
  decide (s.bitmap.length = src.nb) &&
  decide (s.slots.length = src.schema.length) &&
  (s.slots.all fun col => decide (col.length = src.nb)) &&
  ((List.range src.nb).all fun i =>
    !(s.bitmap.getD i false) ||
      decide ((s.slots.map fun col => col.getD i (Val.scalar 0)) = src.sample i))

theorem getD_replicate {α : Type} (a d : α) : ∀ (n i : Nat),
    (List.replicate n a).getD i d = if i < n then a else d
  | 0, _ => by simp [List.replicate]
  | n + 1, 0 => by simp [List.replicate]
  | n + 1, i + 1 => by
    simp only [List.replicate, List.getD_cons_succ, getD_replicate a d n i]
    by_cases h : i < n
    · rw [if_pos h, if_pos (by omega)]
    · rw [if_neg h, if_neg (by omega)]

theorem getD_set_self {α : Type} : ∀ (l : List α) (i : Nat) (v d : α),
    i < l.length → (l.set i v).getD i d = v
  | [], i, v, d, h => by simp at h
  | a :: l, 0, v, d, h => rfl
  | a :: l, i + 1, v, d, h =>
    getD_set_self l i v d (by simpa using h)

theorem getD_set_ne {α : Type} : ∀ (l : List α) (i j : Nat) (v d : α),
    j ≠ i → (l.set i v).getD j d = l.getD j d
  | [], _, _, _, _, _ => rfl
  | a :: l, 0, 0, v, d, h => absurd rfl h
  | a :: l, 0, j + 1, v, d, h => rfl
  | a :: l, i + 1, 0, v, d, h => rfl
  | a :: l, i + 1, j + 1, v, d, h =>
    getD_set_ne l i j v d (fun hji => h (by omega))

/-- When every field of the written sample is an array and the field counts
agree, the per-field write loop succeeds and performs `List.set` on each
column. -/
theorem writeCols_eq (item : Nat) : ∀ (cols : List (List Val)) (vs : List Val),
    vs.all Val.isArr = true → cols.length = vs.length →
    writeCols item cols vs = .ok (List.zipWith (fun col v => col.set item v) cols vs)
  | [], [], _, _ => rfl
  | col :: cols, v :: vs, hall, hlen => by
    simp only [List.all_cons, Bool.and_eq_true] at hall
    obtain ⟨hv, hvs⟩ := hall
    have hrec := writeCols_eq item cols vs hvs (by simpa using hlen)
    cases v with
    | scalar x => simp [Val.isArr] at hv
    | arr2 dt d =>
      simp only [writeCols, hrec]
      rfl
    | arr3 dt d =>
      simp only [writeCols, hrec]
      rfl
  | [], v :: vs, _, hlen => by simp at hlen
  | col :: cols, [], _, hlen => by simp at hlen

theorem zipWith_set_lengths (item : Nat) : ∀ (cols : List (List Val)) (vs : List Val),
    cols.length = vs.length →
    (List.zipWith (fun col v => col.set item v) cols vs).length = cols.length ∧
    ∀ p, ((List.zipWith (fun col v => col.set item v) cols vs).getD p []).length
      = (cols.getD p []).length
  | [], [], _ => by simp
  | col :: cols, v :: vs, hlen => by
    obtain ⟨hl, hp⟩ := zipWith_set_lengths item cols vs (by simpa using hlen)
    refine ⟨by simpa using hl, ?_⟩
    intro p
    cases p with
    | zero => simp
    | succ q => simpa using hp q
  | [], v :: vs, hlen => by simp at hlen
  | col :: cols, [], hlen => by simp at hlen

theorem zipWith_set_getD_self (item : Nat) : ∀ (cols : List (List Val)) (vs : List Val),
    cols.length = vs.length → (∀ col ∈ cols, item < col.length) →
    ((List.zipWith (fun col v => col.set item v) cols vs).map fun col =>
      col.getD item (Val.scalar 0)) = vs
  | [], [], _, _ => rfl
  | col :: cols, v :: vs, hlen, hin => by
    simp only [List.zipWith_cons_cons, List.map_cons]
    rw [getD_set_self col item v _ (hin col (List.mem_cons_self col cols)),
      zipWith_set_getD_self item cols vs (by simpa using hlen)
        (fun c hc => hin c (List.mem_cons_of_mem col hc))]
  | [], v :: vs, hlen, _ => by simp at hlen
  | col :: cols, [], hlen, _ => by simp at hlen

theorem zipWith_set_getD_ne (item j : Nat) (hj : j ≠ item) :
    ∀ (cols : List (List Val)) (vs : List Val), cols.length = vs.length →
    ((List.zipWith (fun col v => col.set item v) cols vs).map fun col =>
      col.getD j (Val.scalar 0)) = cols.map fun col => col.getD j (Val.scalar 0)
  | [], [], _ => rfl
  | col :: cols, v :: vs, hlen => by
    simp only [List.zipWith_cons_cons, List.map_cons]
    rw [getD_set_ne col item j v _ hj,
      zipWith_set_getD_ne item j hj cols vs (by simpa using hlen)]
  | [], v :: vs, hlen => by simp at hlen
  | col :: cols, [], hlen => by simp at hlen

/-- Sample fields are all arrays whenever the schema's are and the sample
conforms to the schema. -/
theorem allArr_of_shape_eq : ∀ (xs ys : List Val),
    xs.map Val.vshape = ys.map Val.vshape → ys.all Val.isArr = true →
    xs.all Val.isArr = true
  | [], [], _, _ => rfl
  | x :: xs, y :: ys, hsh, hall => by
    simp only [List.map_cons, List.cons.injEq] at hsh
    simp only [List.all_cons, Bool.and_eq_true] at hall ⊢
    obtain ⟨hsh1, hsh2⟩ := hsh
    obtain ⟨hy, hys⟩ := hall
    constructor
    · cases x <;> cases y <;> simp_all [Val.vshape, Val.isArr]
    · exact allArr_of_shape_eq xs ys hsh2 hys
  | [], y :: ys, hsh, _ => by simp at hsh
  | x :: xs, [], hsh, _ => by simp at hsh

theorem zipWith_set_mem_length (item n : Nat) : ∀ (cols : List (List Val)) (vs : List Val),
    (∀ col ∈ cols, col.length = n) →
    ∀ col2 ∈ List.zipWith (fun col v => col.set item v) cols vs, col2.length = n
  | [], _, _ => by simp
  | col :: cols, [], _ => by simp
  | col :: cols, v :: vs, h => by
    intro col2 hcol2
    simp only [List.zipWith_cons_cons, List.mem_cons] at hcol2
    cases hcol2 with
    | inl heq =>
      rw [heq, List.length_set]
      exact h col (List.mem_cons_self col cols)
    | inr hmem =>
      exact zipWith_set_mem_length item n cols vs
        (fun c hc => h c (List.mem_cons_of_mem col hc)) col2 hmem

/-- `init_cache` establishes the shared-memory coherence invariant (all
bitmap entries are cleared, so the cached-items condition is vacuous). -/
theorem init_cache_inv (src : Source) (garb : Nat → Nat → Int) (prev : SharedMem) :
    shmInv src (init_cache src garb prev) = true := by
  unfold shmInv init_cache
  simp only [Bool.and_eq_true, decide_eq_true_eq, List.all_eq_true]
  refine ⟨⟨⟨?_, ?_⟩, ?_⟩, ?_⟩
  · simp
  · simp
  · intro col hcol
    simp only [List.mem_map, List.mem_range] at hcol
    obtain ⟨p, hp, hcoleq⟩ := hcol
    cases h : src.schema.getD p (Val.scalar 0) <;> rw [h] at hcoleq <;> rw [← hcoleq] <;> simp
  · intro i hi
    simp only [List.mem_range] at hi
    rw [getD_replicate, if_pos hi]
    simp

/-- `load_array` on an in-range item, under the schema-conformance and
all-array-fields assumptions: it succeeds, returns exactly the pre-cache
sample of the item, and preserves the coherence invariant (hit and miss
paths alike). -/
theorem load_array_ok (src : Source) (s : SharedMem) (item : Nat)
    (hok : src.ok = true) (harr : src.allArrays = true)
    (hinv : shmInv src s = true) (hi : item < src.nb) :
    ∃ s2, load_array src s item = .ok (src.sample item, s2) ∧ shmInv src s2 = true := by
  unfold shmInv at hinv
  simp only [Bool.and_eq_true, decide_eq_true_eq, List.all_eq_true] at hinv
  obtain ⟨⟨⟨hblen, hslen⟩, hcols⟩, hitems⟩ := hinv
  unfold Source.ok at hok
  simp only [List.all_eq_true, Bool.and_eq_true] at hok
  obtain ⟨hconf, hwf⟩ := hok item (List.mem_range.mpr hi)
  unfold confWith at hconf
  rw [decide_eq_true_eq] at hconf
  unfold Source.allArrays at harr
  have hsamplen : (src.sample item).length = src.schema.length := by
    have hc := congrArg List.length hconf
    simpa using hc
  unfold load_array
  by_cases hbit : s.bitmap.getD item false = true
  · rw [if_pos hbit]
    refine ⟨s, ?_, ?_⟩
    · have hit := hitems item (List.mem_range.mpr hi)
      rw [hbit] at hit
      simp only [Bool.not_true, Bool.false_or, decide_eq_true_eq] at hit
      rw [hit]
    · unfold shmInv
      simp only [Bool.and_eq_true, decide_eq_true_eq, List.all_eq_true]
      exact ⟨⟨⟨hblen, hslen⟩, hcols⟩, hitems⟩
  · rw [if_neg hbit]
    have hallarr : (src.sample item).all Val.isArr = true :=
      allArr_of_shape_eq (src.sample item) src.schema hconf harr
    have hlen2 : s.slots.length = (src.sample item).length := by omega
    dsimp only
    rw [writeCols_eq item s.slots (src.sample item) hallarr hlen2]
    refine ⟨_, rfl, ?_⟩
    unfold shmInv
    simp only [Bool.and_eq_true, decide_eq_true_eq, List.all_eq_true]
    have hitem_lt_cols : ∀ col ∈ s.slots, item < col.length := by
      intro col hcol
      rw [hcols col hcol]
      exact hi
    refine ⟨⟨⟨?_, ?_⟩, ?_⟩, ?_⟩
    · simpa using hblen
    · rw [List.length_zipWith]
      omega
    · exact zipWith_set_mem_length item src.nb s.slots (src.sample item) hcols
    · intro j hj
      by_cases hji : j = item
      · subst hji
        rw [getD_set_self s.bitmap j true false (by omega)]
        rw [zipWith_set_getD_self j s.slots (src.sample j) hlen2 hitem_lt_cols]
        simp
      · rw [getD_set_ne s.bitmap item j true false hji]
        rw [zipWith_set_getD_ne item j hji s.slots (src.sample item) hlen2]
        exact hitems j hj

/-! ### Disk backend (`DiskCache`) -/

/-- `misc.is_image`: uint8 arrays that are 2-D, or 3-D with 1, 3 or 4
channels. -/
def is_image (v : Val) : Bool :=
  match v with
  | .arr2 dt _ => decide (dt = Dtype.u8)
  | .arr3 dt d =>
    decide (dt = Dtype.u8) &&
      (let c := ((d.getD 0 []).getD 0 []).length
       decide (c = 1) || decide (c = 3) || decide (c = 4))
  | .scalar _ => false

/-- The per-field storage format recorded in `Metadata` at `init_cache`
time and branched on by `cache_to_disk` / `get_cached_item`:
direct lossless image, packed wide-integer image
(`can_be_stored_as_image` returns the original dtype), raw `.npy` dump,
or not cached at all (non-array fields, kept in `in_memory_items`). -/
inductive StoreMode where
  | image | packed (dt : Dtype) | npy | inMemory
deriving DecidableEq, Repr

def storeModeOf (v : Val) : StoreMode :=
  match v with
  | .scalar _ => .inMemory
  | v =>
    if is_image v then .image
    else
      match v with
      | .arr2 dt _ => if dt.isWideInt then .packed dt else .npy
      | _ => .npy

/-- Storage format of schema field `p` (the `Metadata` of its cache
folder). -/
def Source.fieldMode (src : Source) (p : Nat) : StoreMode :=
  storeModeOf (src.schema.getD p (Val.scalar 0))

/-- What `cache_to_disk` writes for one field: the value itself for the
direct-image and `.npy` formats (their codecs are lossless), or the packed
byte image `convert_to_image(value, value.dtype)`. -/
def encodeStored (mode : StoreMode) (v : Val) : Val :=
  match mode, v with
  | .packed _, .arr2 dt d => .arr3 Dtype.u8 (convert_to_image d dt)
  | _, v => v

/-- What `get_cached_item` reconstructs from one stored file: the stored
value for direct-image and `.npy` formats, or
`revert_image_to_original_dtype(stored, metadata.can_be_stored_as_image)`
for the packed format. -/
def decodeStored (mode : StoreMode) (stored : Val) : Val :=
  match mode, stored with
  | .packed dt, .arr3 _ bytes => .arr2 dt (revert_image_to_original_dtype bytes dt)
  | _, v => v

/-- The disk cache state: the cache directory contents, keyed by (field
position, item index) — one file per cached field and item — and the
in-memory `is_item_cached` mirror maintained by `AbstractCache`. -/
structure DiskState where
  files : List ((Nat × Nat) × Val)
  is_item_cached : List Bool
deriving DecidableEq, Repr

def lookupFile : List ((Nat × Nat) × Val) → Nat × Nat → Option Val
  | [], _ => none
  | (k2, v) :: rest, k => if k2 = k then some v else lookupFile rest k

/-- `DiskCache.check_cache`: every cached (array) field's file for the
item exists; non-array fields are not checked (they have no file). -/
def check_cache (src : Source) (st : DiskState) (item : Nat) : Bool :=
  (List.range src.schema.length).all fun p =>
    if src.fieldMode p = .inMemory then true
    else (lookupFile st.files (p, item)).isSome

/-- One field of `DiskCache.get_cached_item`: a non-array field is served
from the dataset's ground-truth table (`self.d.gts[k][item]`); a cached
field is read from its file and decoded per the field's format.  Reading
a missing file raises. -/
def fieldRead (src : Source) (st : DiskState) (item p : Nat) : Except Err Val :=
  if src.fieldMode p = .inMemory then .ok (src.gts p item)
  else
    match lookupFile st.files (p, item) with
    | some stored => .ok (decodeStored (src.fieldMode p) stored)
    | none => .error Err.readError

/-- The field-collection loop of `DiskCache.get_cached_item`. -/
def collectFields (src : Source) (st : DiskState) (item : Nat) :
    List Nat → Except Err (List Val)
  | [] => .ok []
  | p :: ps => do
    let v ← fieldRead src st item p
    let rest ← collectFields src st item ps
    .ok (v :: rest)

/-- `DiskCache.get_cached_item`. -/
def get_cached_item (src : Source) (st : DiskState) (item : Nat) : Except Err (List Val) :=
  collectFields src st item (List.range src.schema.length)

/-- The write loop of `DiskCache.cache_item`: every field of the computed
sample that is not in `in_memory_items` is encoded and written to its
file (overwriting any existing file). -/
def writeFields (src : Source) (item : Nat) (vs : List Val) :
    List Nat → List ((Nat × Nat) × Val) → List ((Nat × Nat) × Val)
  | [], acc => acc
  | p :: ps, acc =>
    if src.fieldMode p = .inMemory then writeFields src item vs ps acc
    else writeFields src item vs ps
      (((p, item), encodeStored (src.fieldMode p) (vs.getD p (Val.scalar 0))) :: acc)

/-- `DiskCache.cache_item`: if every file exists, read the cached item;
otherwise recompute the full sample, write every cached field's file, set
the item's bitmap entry, and return the freshly computed sample. -/
def cache_item (src : Source) (st : DiskState) (item : Nat) :
    Except Err (List Val × DiskState) :=
  if check_cache src st item then do
    let d ← get_cached_item src st item
    .ok (d, st)
  else
    let arrays := src.sample item
    .ok (arrays,
      { files := writeFields src item arrays (List.range src.schema.length) st.files
        is_item_cached := st.is_item_cached.set item true })

/-- `DiskCache.__getitem__`: consult the in-memory `is_item_cached`
mirror; on a hit read the cached item directly, otherwise go through
`cache_item`. -/
def disk_getitem (src : Source) (st : DiskState) (item : Nat) :
    Except Err (List Val × DiskState) :=
  if st.is_item_cached.getD item false then do
    let d ← get_cached_item src st item
    .ok (d, st)
  else cache_item src st item

/-- `DiskCache.check_if_filling_is_needed`: some cached field's folder
does not hold exactly `nb_samples` files. -/
def check_if_filling_is_needed (src : Source) (st : DiskState) : Bool :=
  (List.range src.schema.length).any fun p =>
    if src.fieldMode p = .inMemory then false
    else !decide ((st.files.countP fun kv => kv.1.1 = p) = src.nb)

/-- `DiskCache.init_cache` starting from a fresh (empty) cache directory:
clear the `is_item_cached` mirror, then mark every item cached when no
filling is needed. -/
def disk_init_cache (src : Source) : DiskState :=
  let st0 : DiskState := ⟨[], List.replicate src.nb false⟩
  if check_if_filling_is_needed src st0 then st0
  else ⟨[], List.replicate src.nb true⟩

/-- Coherence invariant of the disk cache state: the mirror has one entry
per item; every existing file of an in-range item holds the encoding of
that item's pre-cache field value; and every mirrored item has all its
files present. -/
def diskInv (src : Source) (st : DiskState) : Bool :=
  decide (st.is_item_cached.length = src.nb) &&
  ((List.range src.nb).all fun i =>
    ((List.range src.schema.length).all fun p =>
      if src.fieldMode p = .inMemory then true
      else
        match lookupFile st.files (p, i) with
        | some stored =>
          decide (stored = encodeStored (src.fieldMode p) ((src.sample i).getD p (Val.scalar 0)))
        | none => true) &&
    (!(st.is_item_cached.getD i false) || check_cache src st i))

theorem all_congr {α : Type} : ∀ (l : List α) (p q : α → Bool),
    (∀ a ∈ l, p a = q a) → l.all p = l.all q
  | [], _, _, _ => rfl
  | a :: l, p, q, h => by
    simp only [List.all_cons]
    rw [h a (List.mem_cons_self a l),
      all_congr l p q (fun x hx => h x (List.mem_cons_of_mem a hx))]

theorem vshape_getD_eq : ∀ (xs ys : List Val),
    xs.map Val.vshape = ys.map Val.vshape →
    ∀ p, (xs.getD p (Val.scalar 0)).vshape = (ys.getD p (Val.scalar 0)).vshape
  | [], [], _, _ => rfl
  | x :: xs, y :: ys, h, 0 => by
    simp only [List.map_cons, List.cons.injEq] at h
    exact h.1
  | x :: xs, y :: ys, h, p + 1 => by
    simp only [List.map_cons, List.cons.injEq] at h
    exact vshape_getD_eq xs ys h.2 p
  | [], y :: ys, h, _ => by simp at h
  | x :: xs, [], h, _ => by simp at h

theorem wf_getD : ∀ (l : List Val) (p : Nat),
    (∀ v ∈ l, v.wf = true) → (l.getD p (Val.scalar 0)).wf = true
  | [], _, _ => rfl
  | v :: l, 0, h => h v (List.mem_cons_self v l)
  | v :: l, p + 1, h => wf_getD l p (fun x hx => h x (List.mem_cons_of_mem v hx))

theorem getD_map_range {α : Type} (g : Nat → α) (d : α) (n p : Nat) (hp : p < n) :
    ((List.range n).map g).getD p d = g p := by
  rw [List.getD_eq_getElem?_getD, List.getElem?_map, List.getElem?_range hp]
  rfl

/-- Decoding a stored file restores the original field value, given that
the storage format was decided from a schema value of the same shape and
dtype and that the value is within its dtype's range. -/
theorem decode_encode (mode : StoreMode) (sv v : Val)
    (hm : mode = storeModeOf sv) (hsh : v.vshape = sv.vshape) (hwf : v.wf = true) :
    decodeStored mode (encodeStored mode v) = v := by
  cases mode with
  | image => cases v <;> rfl
  | npy => cases v <;> rfl
  | inMemory => cases v <;> rfl
  | packed dt =>
    cases sv with
    | scalar x => simp [storeModeOf] at hm
    | arr3 dt2 d2 =>
      simp only [storeModeOf] at hm
      by_cases himg : is_image (Val.arr3 dt2 d2) = true
      · rw [if_pos himg] at hm
        cases hm
      · rw [if_neg himg] at hm
        cases hm
    | arr2 dt2 d2 =>
      simp only [storeModeOf] at hm
      by_cases himg : is_image (Val.arr2 dt2 d2) = true
      · rw [if_pos himg] at hm
        cases hm
      · rw [if_neg himg] at hm
        by_cases hwide : dt2.isWideInt = true
        · rw [if_pos hwide] at hm
          cases hm
          cases v with
          | scalar x => simp [Val.vshape] at hsh
          | arr3 dtv dv => simp [Val.vshape] at hsh
          | arr2 dtv dv =>
            simp only [Val.vshape, ValShape.s2.injEq] at hsh
            obtain ⟨hdt, -⟩ := hsh
            subst hdt
            simp only [encodeStored, decodeStored]
            rw [revert_convert dtv dv (by simpa [Val.wf] using hwf)]
        · rw [if_neg hwide] at hm
          cases hm

theorem collectFields_ok (src : Source) (st : DiskState) (item : Nat) (g : Nat → Val) :
    ∀ (ps : List Nat), (∀ p ∈ ps, fieldRead src st item p = .ok (g p)) →
    collectFields src st item ps = .ok (ps.map g)
  | [], _ => rfl
  | p :: ps, h => by
    unfold collectFields
    rw [h p (List.mem_cons_self p ps),
      collectFields_ok src st item g ps (fun x hx => h x (List.mem_cons_of_mem p hx))]
    rfl

theorem lookupFile_cons (k2 : Nat × Nat) (v : Val) (rest : List ((Nat × Nat) × Val))
    (k : Nat × Nat) :
    lookupFile ((k2, v) :: rest) k = if k2 = k then some v else lookupFile rest k := rfl

theorem writeFields_lookup (src : Source) (item : Nat) (vs : List Val) :
    ∀ (ps : List Nat) (acc : List ((Nat × Nat) × Val)) (q j : Nat),
    lookupFile (writeFields src item vs ps acc) (q, j) =
      if j = item ∧ q ∈ ps ∧ src.fieldMode q ≠ StoreMode.inMemory
      then some (encodeStored (src.fieldMode q) (vs.getD q (Val.scalar 0)))
      else lookupFile acc (q, j)
  | [], acc, q, j => by
    rw [if_neg]
    · rfl
    · rintro ⟨-, hq, -⟩
      simp at hq
  | p :: ps, acc, q, j => by
    unfold writeFields
    by_cases hmode : src.fieldMode p = StoreMode.inMemory
    · rw [if_pos hmode, writeFields_lookup src item vs ps acc q j]
      by_cases hcond : j = item ∧ q ∈ ps ∧ src.fieldMode q ≠ StoreMode.inMemory
      · rw [if_pos hcond, if_pos ⟨hcond.1, List.mem_cons_of_mem p hcond.2.1, hcond.2.2⟩]
      · rw [if_neg hcond, if_neg]
        rintro ⟨hj, hqmem, hqmode⟩
        rcases List.mem_cons.mp hqmem with hqp | hqps
        · subst hqp
          exact hqmode hmode
        · exact hcond ⟨hj, hqps, hqmode⟩
    · rw [if_neg hmode, writeFields_lookup src item vs ps _ q j]
      by_cases hcond : j = item ∧ q ∈ ps ∧ src.fieldMode q ≠ StoreMode.inMemory
      · rw [if_pos hcond, if_pos ⟨hcond.1, List.mem_cons_of_mem p hcond.2.1, hcond.2.2⟩]
      · rw [if_neg hcond, lookupFile_cons]
        by_cases hkey : ((p, item) : Nat × Nat) = (q, j)
        · have hpq : p = q := congrArg Prod.fst hkey
          have hij : item = j := congrArg Prod.snd hkey
          subst hpq
          subst hij
          rw [if_pos rfl, if_pos ⟨rfl, List.mem_cons_self p ps, hmode⟩]
        · rw [if_neg hkey, if_neg]
          rintro ⟨hj, hqmem, hqmode⟩
          rcases List.mem_cons.mp hqmem with hqp | hqps
          · exact hkey (by rw [hqp, hj])
          · exact hcond ⟨hj, hqps, hqmode⟩

/-- `get_cached_item` on a fully cached, coherent item returns the
ground-truth value of every non-array field and the exact pre-cache array
of every cached field. -/
theorem get_cached_item_ok (src : Source) (st : DiskState) (item : Nat)
    (hconf : (src.sample item).map Val.vshape = src.schema.map Val.vshape)
    (hwf : ∀ v ∈ src.sample item, v.wf = true)
    (hfiles : ∀ p ∈ List.range src.schema.length,
      (if src.fieldMode p = StoreMode.inMemory then true
       else
         match lookupFile st.files (p, item) with
         | some stored =>
           decide (stored = encodeStored (src.fieldMode p)
             ((src.sample item).getD p (Val.scalar 0)))
         | none => true) = true)
    (hcheck : check_cache src st item = true) :
    get_cached_item src st item = .ok ((List.range src.schema.length).map fun p =>
      if src.fieldMode p = StoreMode.inMemory then src.gts p item
      else (src.sample item).getD p (Val.scalar 0)) := by
  unfold get_cached_item
  apply collectFields_ok
  intro p hp
  unfold check_cache at hcheck
  rw [List.all_eq_true] at hcheck
  have hchk := hcheck p hp
  have hfile := hfiles p hp
  by_cases hpm : src.fieldMode p = StoreMode.inMemory
  · rw [if_pos hpm]
    unfold fieldRead
    rw [if_pos hpm]
  · rw [if_neg hpm]
    rw [if_neg hpm] at hchk hfile
    obtain ⟨stored, hlk⟩ := Option.isSome_iff_exists.mp hchk
    rw [hlk] at hfile
    rw [decide_eq_true_eq] at hfile
    unfold fieldRead
    rw [if_neg hpm, hlk]
    show Except.ok (decodeStored (src.fieldMode p) stored) = _
    rw [hfile]
    rw [decode_encode (src.fieldMode p) (src.schema.getD p (Val.scalar 0))
      ((src.sample item).getD p (Val.scalar 0)) rfl
      (vshape_getD_eq (src.sample item) src.schema hconf p)
      (wf_getD (src.sample item) p hwf)]

/-- `DiskCache.__getitem__` on an in-range item of a coherent state:
it succeeds, preserves coherence, and the returned sample's cached
(array) fields are exactly the pre-cache sample's — on the mirror-hit,
full-files-hit and miss paths alike. -/
theorem disk_getitem_ok (src : Source) (st : DiskState) (item : Nat)
    (hok : src.ok = true) (hinv : diskInv src st = true) (hi : item < src.nb) :
    ∃ out st2, disk_getitem src st item = .ok (out, st2) ∧ diskInv src st2 = true ∧
      out.length = src.schema.length ∧
      ∀ p, p < src.schema.length → src.fieldMode p ≠ StoreMode.inMemory →
        out.getD p (Val.scalar 0) = (src.sample item).getD p (Val.scalar 0) := by
  unfold diskInv at hinv
  simp only [Bool.and_eq_true, decide_eq_true_eq, List.all_eq_true] at hinv
  obtain ⟨hmlen, hitems⟩ := hinv
  unfold Source.ok at hok
  simp only [List.all_eq_true, Bool.and_eq_true] at hok
  obtain ⟨hconf, hwf⟩ := hok item (List.mem_range.mpr hi)
  unfold confWith at hconf
  rw [decide_eq_true_eq] at hconf
  have hsamplen : (src.sample item).length = src.schema.length := by
    have hc := congrArg List.length hconf
    simpa using hc
  unfold disk_getitem
  by_cases hmir : st.is_item_cached.getD item false = true
  · rw [if_pos hmir]
    obtain ⟨hfiles, hbit⟩ := hitems item (List.mem_range.mpr hi)
    have hcheck : check_cache src st item = true := by
      rw [hmir] at hbit
      simpa using hbit
    rw [get_cached_item_ok src st item hconf hwf hfiles hcheck]
    refine ⟨_, st, rfl, ?_, ?_, ?_⟩
    · unfold diskInv
      simp only [Bool.and_eq_true, decide_eq_true_eq, List.all_eq_true]
      exact ⟨hmlen, hitems⟩
    · simp
    · intro p hp hpm
      rw [getD_map_range _ _ _ p hp, if_neg hpm]
  · rw [if_neg hmir]
    unfold cache_item
    by_cases hcheck : check_cache src st item = true
    · rw [if_pos hcheck]
      obtain ⟨hfiles, hbit⟩ := hitems item (List.mem_range.mpr hi)
      rw [get_cached_item_ok src st item hconf hwf hfiles hcheck]
      refine ⟨_, st, rfl, ?_, ?_, ?_⟩
      · unfold diskInv
        simp only [Bool.and_eq_true, decide_eq_true_eq, List.all_eq_true]
        exact ⟨hmlen, hitems⟩
      · simp
      · intro p hp hpm
        rw [getD_map_range _ _ _ p hp, if_neg hpm]
    · rw [if_neg hcheck]
      dsimp only
      refine ⟨src.sample item,
        ⟨writeFields src item (src.sample item) (List.range src.schema.length) st.files,
          st.is_item_cached.set item true⟩, rfl, ?_, hsamplen, fun p hp hpm => rfl⟩
      unfold diskInv
      simp only [Bool.and_eq_true, decide_eq_true_eq, List.all_eq_true]
      constructor
      · simpa using hmlen
      · intro i himem
        constructor
        · intro p hpmem
          by_cases hpm : src.fieldMode p = StoreMode.inMemory
          · rw [if_pos hpm]
          · rw [if_neg hpm]
            rw [writeFields_lookup src item (src.sample item)
              (List.range src.schema.length) st.files p i]
            by_cases hii : i = item
            · subst hii
              rw [if_pos ⟨rfl, hpmem, hpm⟩]
              simp
            · rw [if_neg (by rintro ⟨h1, -, -⟩; exact hii h1)]
              have hold := (hitems i himem).1 p hpmem
              rw [if_neg hpm] at hold
              exact hold
        · by_cases hii : i = item
          · subst hii
            rw [getD_set_self st.is_item_cached i true false (by omega)]
            have hchk2 : check_cache src
                ⟨writeFields src i (src.sample i) (List.range src.schema.length) st.files,
                  st.is_item_cached.set i true⟩ i = true := by
              unfold check_cache
              rw [List.all_eq_true]
              intro p hpmem
              by_cases hpm : src.fieldMode p = StoreMode.inMemory
              · rw [if_pos hpm]
              · rw [if_neg hpm]
                rw [writeFields_lookup src i (src.sample i)
                  (List.range src.schema.length) st.files p i]
                rw [if_pos ⟨rfl, hpmem, hpm⟩]
                rfl
            rw [hchk2]
            rfl
          · rw [getD_set_ne st.is_item_cached item i true false hii]
            have hold := (hitems i himem).2
            have hcongr : check_cache src
                ⟨writeFields src item (src.sample item)
                  (List.range src.schema.length) st.files,
                  st.is_item_cached.set item true⟩ i = check_cache src st i := by
              unfold check_cache
              apply all_congr
              intro p hpmem
              by_cases hpm : src.fieldMode p = StoreMode.inMemory
              · rw [if_pos hpm, if_pos hpm]
              · rw [if_neg hpm, if_neg hpm]
                rw [writeFields_lookup src item (src.sample item)
                  (List.range src.schema.length) st.files p i]
                rw [if_neg (by rintro ⟨h1, -, -⟩; exact hii h1)]
            rw [hcongr]
            exact hold

/-- `DiskCache.init_cache` from a fresh cache directory establishes the
coherence invariant. -/
theorem disk_init_inv (src : Source) : diskInv src (disk_init_cache src) = true := by
  unfold disk_init_cache
  by_cases hneed : check_if_filling_is_needed src ⟨[], List.replicate src.nb false⟩ = true
  · rw [if_pos hneed]
    unfold diskInv
    simp only [Bool.and_eq_true, decide_eq_true_eq, List.all_eq_true]
    constructor
    · simp
    · intro i hi
      constructor
      · intro p hp
        by_cases hpm : src.fieldMode p = StoreMode.inMemory
        · rw [if_pos hpm]
        · rw [if_neg hpm]
          rfl
      · rw [getD_replicate, if_pos (List.mem_range.mp hi)]
        rfl
  · rw [if_neg hneed]
    unfold check_if_filling_is_needed at hneed
    have hall : ∀ p ∈ List.range src.schema.length,
        src.fieldMode p ≠ StoreMode.inMemory → src.nb = 0 := by
      intro p hp hpm
      by_contra hnb
      apply hneed
      rw [List.any_eq_true]
      refine ⟨p, hp, ?_⟩
      rw [if_neg hpm]
      simp only [List.countP_nil]
      simp only [Bool.not_eq_true']
      rw [decide_eq_false_iff_not]
      omega
    unfold diskInv
    simp only [Bool.and_eq_true, decide_eq_true_eq, List.all_eq_true]
    constructor
    · simp
    · intro i hi
      have hilt := List.mem_range.mp hi
      constructor
      · intro p hp
        by_cases hpm : src.fieldMode p = StoreMode.inMemory
        · rw [if_pos hpm]
        · rw [if_neg hpm]
          rfl
      · rw [getD_replicate, if_pos hilt]
        have hchk : check_cache src ⟨[], List.replicate src.nb true⟩ i = true := by
          unfold check_cache
          rw [List.all_eq_true]
          intro p hp
          by_cases hpm : src.fieldMode p = StoreMode.inMemory
          · rw [if_pos hpm]
          · exact absurd (hall p hp hpm) (by omega)
        rw [hchk]
        rfl

/-! ### Dataset-side operations: `__getitem__` index handling, `remap`,
`__del__`, and the `cache_option` validator -/

/-- The index arithmetic of `AbstractImageDataset.__getitem__` followed by
Python sequence indexing inside `load_array`/`load_image`:
`if abs(index) >= len(self): raise StopIteration`, then
`if index >= real_length: index = index % real_length`, and finally Python
list/array indexing which accepts negative indices down to `-real_length`
(wrapping to `real_length + index`) and raises IndexError below that.
`length` is `len(self) = int(multiplicative_size_factor * real_length)`;
`real` is `real_length`. -/
def resolveIndex (length real : Nat) (i : Int) : Except Err Nat :=
  if length ≤ i.natAbs then .error .stopIteration
  else
    let i2 : Int := if (real : Int) ≤ i then i % (real : Int) else i
    if 0 ≤ i2 then .ok i2.toNat
    else if 0 ≤ (real : Int) + i2 then .ok ((real : Int) + i2).toNat
    else .error .indexError

/-- `Dataset.__getitem__` routed to the shared-memory-cached `load_array`
(post-cache transform, index/tag injection and key filtering omitted:
they do not touch the cache). -/
def dataset_getitem (src : Source) (s : SharedMem) (length : Nat) (i : Int) :
    Except Err (List Val × SharedMem) := do
  let j ← resolveIndex length src.nb i
  load_array src s j

def lookupStr {α : Type} : List (String × α) → String → Option α
  | [], _ => none
  | (k2, v) :: rest, k => if k2 = k then some v else lookupStr rest k

def removeKey {α : Type} (d : List (String × α)) (k : String) : List (String × α) :=
  d.filter fun kv => kv.1 ≠ k

/-- `d[new_key] = v`: overwrite in place if present, else append. -/
def setKey {α : Type} (d : List (String × α)) (k : String) (v : α) : List (String × α) :=
  if (lookupStr d k).isSome then d.map fun kv => if kv.1 = k then (k, v) else kv
  else d ++ [(k, v)]

/-- One dictionary step of `AbstractImageDataset.remap`:
`if old_key in d: d[new_key] = d.pop(old_key)`. -/
def dict_remap {α : Type} (old new : String) (d : List (String × α)) : List (String × α) :=
  match lookupStr d old with
  | none => d
  | some v => setKey (removeKey d old) new v

/-- `AbstractImageDataset.remap`, applied to the three bookkeeping
dictionaries `img_filepath`, `gts` and `shared_arrays`. -/
def dataset_remap {α β γ : Type} (old new : String)
    (img : List (String × α)) (gts : List (String × β)) (shared : List (String × γ)) :
    List (String × α) × List (String × β) × List (String × γ) :=
  (dict_remap old new img, dict_remap old new gts, dict_remap old new shared)

/-- `DiskCache.remap`: rename the key in `cache_folders`; remove `old_key`
from `in_memory_items` if present; then append `new_key` to
`in_memory_items` — the append sits outside the membership check and runs
unconditionally.  Metadata values are abstracted as `Nat` tokens. -/
def disk_remap (cache_folders : List (String × Nat)) (in_memory_items : List String)
    (old new : String) : List (String × Nat) × List String :=
  let cf := cache_folders.map fun kv => if kv.1 = old then (new, kv.2) else kv
  let im := (if old ∈ in_memory_items then in_memory_items.erase old else in_memory_items)
    ++ [new]
  (cf, im)

/-- The flags consulted by `AbstractImageDataset.__del__`, and the handles
held in `self.shms`. -/
structure TeardownState where
  use_cache : Bool
  cache_initialized : Bool
  is_first_process : Bool
  shms : List Nat
deriving DecidableEq, Repr

inductive ShmAction where
  | close (h : Nat)
  | unlink (h : Nat)
deriving DecidableEq, Repr

/-- `AbstractImageDataset.__del__`: the whole body is guarded by
`if self.use_cache and self.cache_initialized and self._is_first_process`;
inside, every handle is closed and then — under a second (redundant)
`if self._is_first_process` — every handle is unlinked. -/
def dataset_del (s : TeardownState) : List ShmAction :=
  if s.use_cache && s.cache_initialized && s.is_first_process then
    (s.shms.map ShmAction.close) ++
      (if s.is_first_process then s.shms.map ShmAction.unlink else [])
  else []

inductive CacheOpt where
  | disk | memory
deriving DecidableEq, Repr

/-- `AbstractImageDataset._cache_option_validator`, run by attrs at
construction time: `if self.use_cache and value is None: raise ValueError`. -/
def cache_option_validator (use_cache : Bool) (cache_option : Option CacheOpt) :
    Except Err Unit :=
  if use_cache = true ∧ cache_option = none then .error .valueError else .ok ()

/-- Constructing an `AbstractImageDataset` (any subclass): attrs runs the
field validators before the instance is returned. -/
def mk_dataset (use_cache : Bool) (cache_option : Option CacheOpt) :
    Except Err (Bool × Option CacheOpt) := do
  cache_option_validator use_cache cache_option
  .ok (use_cache, cache_option)

/-! ### Concrete fixtures used by counterexamples and witnesses -/

/-- A one-item dataset with a single 1×1 uint8 image field. -/
def srcA : Source :=
  { nb := 1
    sample := fun _ => [Val.arr2 Dtype.u8 [[5]]]
    gts := fun _ _ => Val.scalar 0 }

/-- A three-item dataset with a single 1×1 uint8 image field whose pixel
value equals the item index. -/
def srcB : Source :=
  { nb := 3
    sample := fun i => [Val.arr2 Dtype.u8 [[Int.ofNat i]]]
    gts := fun _ _ => Val.scalar 0 }

/-- A two-item dataset with a packed-storage int16 image field and a
scalar label field (ground truth `i`). -/
def srcC : Source :=
  { nb := 2
    sample := fun i => [Val.arr2 Dtype.i16 [[Int.ofNat i - 3]], Val.scalar (Int.ofNat i)]
    gts := fun _ i => Val.scalar (Int.ofNat i) }

/-- A one-item dataset with a 1×1 uint8 image field and a scalar label
field whose ground-truth value is 7. -/
def srcD : Source :=
  { nb := 1
    sample := fun _ => [Val.arr2 Dtype.u8 [[1]], Val.scalar 7]
    gts := fun _ _ => Val.scalar 7 }

def g0 : Nat → Nat → Int := fun _ _ => 0

def emptyShm : SharedMem := ⟨[], []⟩

/-- The shared regions as left by a first process that cached item 0 of
`srcA` (bitmap entry set, slot holding the sample). -/
def populatedShmA : SharedMem := ⟨[true], [[Val.arr2 Dtype.u8 [[5]]]]⟩

def exceptEq {ε α : Type} [DecidableEq ε] [DecidableEq α] :
    (a b : Except ε α) → Decidable (a = b)
  | .ok a, .ok b =>
    if h : a = b then .isTrue (congrArg Except.ok h)
    else .isFalse fun hh => h (Except.ok.inj hh)
  | .error e, .error f =>
    if h : e = f then .isTrue (congrArg Except.error h)
    else .isFalse fun hh => h (Except.error.inj hh)
  | .ok _, .error _ => .isFalse fun hh => Except.noConfusion hh
  | .error _, .ok _ => .isFalse fun hh => Except.noConfusion hh

instance {ε α : Type} [DecidableEq ε] [DecidableEq α] : DecidableEq (Except ε α) :=
  exceptEq

theorem bind_ok_eq {α β : Type} (a : α) (f : α → Except Err β) :
    (Except.ok a >>= f) = f a := rfl

theorem init_cache_bitmap_false (src : Source) (garb : Nat → Nat → Int) (prev : SharedMem)
    (j : Nat) : (init_cache src garb prev).bitmap.getD j false = false := by
  unfold init_cache
  rw [getD_replicate]
  by_cases h : j < src.nb
  · rw [if_pos h]
  · rw [if_neg h]

theorem init_cache_slots_zero (src : Source) (garb : Nat → Nat → Int) (prev : SharedMem)
    (p : Nat) (hp : p < src.schema.length)
    (hparr : (src.schema.getD p (Val.scalar 0)).isArr = true) :
    (init_cache src garb prev).slots.getD p [] =
      List.replicate src.nb (src.schema.getD p (Val.scalar 0)).zeroLike := by
  unfold init_cache
  dsimp only
  rw [getD_map_range _ _ _ p hp]
  cases hv : src.schema.getD p (Val.scalar 0) with
  | scalar x => rw [hv] at hparr; simp [Val.isArr] at hparr
  | arr2 dt d => rfl
  | arr3 dt d => rfl

/-! ### The claims -/

/-- Claim C1 (confirmed): for every in-range index, fetch-or-compute
(`load_array` for the shared-memory backend, `DiskCache.__getitem__` /
`cache_item` for the disk backend) returns a sample whose array fields are
byte-for-byte equal to the pre-cache transform applied to the loaded
sample (`precompose_data(load_image(i))`), for both backends and on hit
and miss paths alike.  Stated as: both backends' initialization
establishes the coherence invariant, and from any coherent state the
fetch succeeds, returns exactly the pre-cache sample's array fields, and
preserves coherence.  The shared-memory half assumes all schema fields
are arrays (a scalar field makes its miss path raise, see C6); both
halves assume schema conformance of all samples. -/
theorem C1_fetch_or_compute_matches_precache (src : Source) (garb : Nat → Nat → Int)
    (prev : SharedMem) :
    (src.ok = true → src.allArrays = true →
      shmInv src (init_cache src garb prev) = true ∧
      ∀ (s : SharedMem) (item : Nat), shmInv src s = true → item < src.nb →
        ∃ s2, load_array src s item = .ok (src.sample item, s2) ∧ shmInv src s2 = true) ∧
    (src.ok = true →
      diskInv src (disk_init_cache src) = true ∧
      ∀ (st : DiskState) (item : Nat), diskInv src st = true → item < src.nb →
        ∃ out st2, disk_getitem src st item = .ok (out, st2) ∧ diskInv src st2 = true ∧
          out.length = src.schema.length ∧
          ∀ p, p < src.schema.length → src.fieldMode p ≠ StoreMode.inMemory →
            out.getD p (Val.scalar 0) = (src.sample item).getD p (Val.scalar 0)) := by
  constructor
  · intro hok harr
    exact ⟨init_cache_inv src garb prev,
      fun s item hinv hi => load_array_ok src s item hok harr hinv hi⟩
  · intro hok
    exact ⟨disk_init_inv src,
      fun st item hinv hi => disk_getitem_ok src st item hok hinv hi⟩

theorem C1_fetch_or_compute_matches_precache_witness :
    (∃ s2, load_array srcB (init_cache srcB g0 emptyShm) 1
      = .ok (srcB.sample 1, s2) ∧ shmInv srcB s2 = true) ∧
    (∃ out st2, disk_getitem srcC (disk_init_cache srcC) 0 = .ok (out, st2) ∧
      diskInv srcC st2 = true ∧ out.length = srcC.schema.length ∧
      ∀ p, p < srcC.schema.length → srcC.fieldMode p ≠ StoreMode.inMemory →
        out.getD p (Val.scalar 0) = (srcC.sample 0).getD p (Val.scalar 0)) := by
  constructor
  · exact ((C1_fetch_or_compute_matches_precache srcB g0 emptyShm).1
      (by decide) (by decide)).2 (init_cache srcB g0 emptyShm) 1
      ((C1_fetch_or_compute_matches_precache srcB g0 emptyShm).1
        (by decide) (by decide)).1 (by decide)
  · exact ((C1_fetch_or_compute_matches_precache srcC g0 emptyShm).2 (by decide)).2
      (disk_init_cache srcC) 0
      ((C1_fetch_or_compute_matches_precache srcC g0 emptyShm).2 (by decide)).1
      (by decide)

/-- Claim C2 (confirmed): for every 2-D array of dtype int16, uint16,
int32 or uint32, with arbitrary values in the dtype's range, the disk
cache's packed-integer round trip is exact:
`revert_image_to_original_dtype (convert_to_image a dt) dt = a`. -/
theorem C2_packed_roundtrip_exact (dt : Dtype) (a : List (List Int))
    (_hdt : dt.isWideInt = true)
    (hr : (a.all fun row => row.all fun e => dt.inRange e) = true) :
    revert_image_to_original_dtype (convert_to_image a dt) dt = a :=
  revert_convert dt a hr

theorem C2_packed_roundtrip_exact_witness :
    Dtype.i16.isWideInt = true ∧
    (([[(-32768 : Int), 32767], [-1, 0]] : List (List Int)).all
      fun row => row.all fun e => Dtype.i16.inRange e) = true ∧
    revert_image_to_original_dtype
      (convert_to_image [[(-32768 : Int), 32767], [-1, 0]] Dtype.i16) Dtype.i16
      = [[(-32768 : Int), 32767], [-1, 0]] :=
  ⟨by decide, by decide,
    C2_packed_roundtrip_exact Dtype.i16 [[(-32768 : Int), 32767], [-1, 0]]
      (by decide) (by decide)⟩

/-- Counterexample to claim C3: a process that attaches to already
populated live regions (`populatedShmA`: bitmap entry true, slot holding
the cached sample) runs `init_cache` and both regions are re-zeroed —
attaching does re-zero existing contents. -/
theorem C3_attach_rezeroes_counterexample :
    populatedShmA.bitmap.getD 0 false = true ∧
    populatedShmA.slots.getD 0 [] = [Val.arr2 Dtype.u8 [[5]]] ∧
    (init_cache srcA g0 populatedShmA).bitmap.getD 0 false = false ∧
    (init_cache srcA g0 populatedShmA).slots.getD 0 [] = [Val.arr2 Dtype.u8 [[0]]] := by
  decide

/-- Claim C3 (corrected): `init_cache` zero-initializes the bitmap region
and every array field's region unconditionally — both when this process
creates the regions and when it attaches to existing ones — discarding
whatever contents (`prev`) the regions already held. -/
theorem C3_init_zeroes_all_regions (src : Source) (garb : Nat → Nat → Int)
    (prev : SharedMem) :
    (∀ j, (init_cache src garb prev).bitmap.getD j false = false) ∧
    (∀ p, p < src.schema.length → (src.schema.getD p (Val.scalar 0)).isArr = true →
      (init_cache src garb prev).slots.getD p [] =
        List.replicate src.nb (src.schema.getD p (Val.scalar 0)).zeroLike) :=
  ⟨fun j => init_cache_bitmap_false src garb prev j,
   fun p hp hparr => init_cache_slots_zero src garb prev p hp hparr⟩

theorem C3_init_zeroes_all_regions_witness :
    (init_cache srcA g0 populatedShmA).bitmap.getD 0 false = false ∧
    (init_cache srcA g0 populatedShmA).slots.getD 0 [] =
      List.replicate srcA.nb (srcA.schema.getD 0 (Val.scalar 0)).zeroLike :=
  ⟨(C3_init_zeroes_all_regions srcA g0 populatedShmA).1 0,
   (C3_init_zeroes_all_regions srcA g0 populatedShmA).2 0 (by decide) (by decide)⟩

/-- Counterexample to claim C4: after the first process caches item 0 of
`srcA` (the bitmap entry becomes true and the state equals
`populatedShmA`), a second process attaching to the same live regions
runs `init_cache`, and the bitmap entry reverts to false. -/
theorem C4_bitmap_reset_counterexample :
    (load_array srcA (init_cache srcA g0 emptyShm) 0).toOption.map
      (fun r => r.2) = some populatedShmA ∧
    populatedShmA.bitmap.getD 0 false = true ∧
    (init_cache srcA g0 populatedShmA).bitmap = [false] := by
  decide

/-- Claim C4 (corrected): between cache initializations the bitmap is
monotone — `load_array` never clears a set entry, and when it returns the
requested item's entry is set and the item's slots hold the complete
pre-cache sample (the entry is set only after the full write) — but any
further `init_cache`, e.g. run by a second process attaching to the live
regions, resets every bitmap entry to false. -/
theorem C4_bitmap_monotone_between_inits :
    (∀ (src : Source) (s : SharedMem) (item j : Nat) (out : List Val) (s2 : SharedMem),
      load_array src s item = .ok (out, s2) →
      s.bitmap.getD j false = true → s2.bitmap.getD j false = true) ∧
    (∀ (src : Source) (s : SharedMem) (item : Nat) (out : List Val) (s2 : SharedMem),
      src.ok = true → src.allArrays = true → shmInv src s = true → item < src.nb →
      load_array src s item = .ok (out, s2) →
      out = src.sample item ∧ s2.bitmap.getD item false = true ∧
        (s2.slots.map fun col => col.getD item (Val.scalar 0)) = src.sample item) ∧
    (∀ (src : Source) (garb : Nat → Nat → Int) (prev : SharedMem) (j : Nat),
      (init_cache src garb prev).bitmap.getD j false = false) := by
  refine ⟨?_, ?_, ?_⟩
  · intro src s item j out s2 hload hj
    unfold load_array at hload
    by_cases hbit : s.bitmap.getD item false = true
    · rw [if_pos hbit] at hload
      simp only [Except.ok.injEq, Prod.mk.injEq] at hload
      obtain ⟨-, hs⟩ := hload
      rw [← hs]
      exact hj
    · rw [if_neg hbit] at hload
      dsimp only at hload
      cases hw : writeCols item s.slots (src.sample item) with
      | error e =>
        rw [hw] at hload
        exact Except.noConfusion hload
      | ok z =>
        rw [hw, bind_ok_eq] at hload
        simp only [Except.ok.injEq, Prod.mk.injEq] at hload
        obtain ⟨-, hs⟩ := hload
        rw [← hs]
        have hji : j ≠ item := by
          intro h
          rw [h] at hj
          exact hbit hj
        exact (getD_set_ne s.bitmap item j true false hji).trans hj
  · intro src s item out s2 hok harr hinv hi hload
    obtain ⟨s2b, heq, hinv2⟩ := load_array_ok src s item hok harr hinv hi
    rw [hload] at heq
    simp only [Except.ok.injEq, Prod.mk.injEq] at heq
    obtain ⟨hout, hs2⟩ := heq
    subst hs2
    subst hout
    have hblen : s.bitmap.length = src.nb := by
      unfold shmInv at hinv
      simp only [Bool.and_eq_true, decide_eq_true_eq, List.all_eq_true] at hinv
      exact hinv.1.1.1
    have hbit2 : s2.bitmap.getD item false = true := by
      unfold load_array at hload
      by_cases hbit : s.bitmap.getD item false = true
      · rw [if_pos hbit] at hload
        simp only [Except.ok.injEq, Prod.mk.injEq] at hload
        obtain ⟨-, hs⟩ := hload
        rw [← hs]
        exact hbit
      · rw [if_neg hbit] at hload
        dsimp only at hload
        cases hw : writeCols item s.slots (src.sample item) with
        | error e =>
          rw [hw] at hload
          exact Except.noConfusion hload
        | ok z =>
          rw [hw, bind_ok_eq] at hload
          simp only [Except.ok.injEq, Prod.mk.injEq] at hload
          obtain ⟨-, hs⟩ := hload
          rw [← hs]
          exact getD_set_self s.bitmap item true false (by omega)
    refine ⟨rfl, hbit2, ?_⟩
    unfold shmInv at hinv2
    simp only [Bool.and_eq_true, decide_eq_true_eq, List.all_eq_true] at hinv2
    have hfin := hinv2.2 item (List.mem_range.mpr hi)
    rw [hbit2] at hfin
    simpa using hfin
  · intro src garb prev j
    exact init_cache_bitmap_false src garb prev j

/-- The shared-memory state after `srcB`'s item 1 is cached. -/
def sB1 : SharedMem :=
  ⟨[false, true, false],
   [[Val.arr2 Dtype.u8 [[0]], Val.arr2 Dtype.u8 [[1]], Val.arr2 Dtype.u8 [[0]]]]⟩

theorem C4_bitmap_monotone_between_inits_witness :
    srcB.sample 1 = srcB.sample 1 ∧ sB1.bitmap.getD 1 false = true ∧
    (sB1.slots.map fun col => col.getD 1 (Val.scalar 0)) = srcB.sample 1 :=
  C4_bitmap_monotone_between_inits.2.1 srcB (init_cache srcB g0 emptyShm) 1
    (srcB.sample 1) sB1 (by decide) (by decide) (by decide) (by decide) (by decide)

/-- Counterexample to claim C5: index `-1` is outside `[0, num_samples)`,
yet `__getitem__` neither raises a lookup error nor refuses it — Python's
negative indexing silently wraps it to the last item, and the fetch
returns item 2's sample. -/
theorem C5_negative_index_wraps_counterexample :
    resolveIndex 3 3 (-1) = .ok 2 ∧
    (dataset_getitem srcB (init_cache srcB g0 emptyShm) 3 (-1)).toOption.map Prod.fst
      = some [Val.arr2 Dtype.u8 [[2]]] ∧
    [Val.arr2 Dtype.u8 [[2]]] = srcB.sample 2 := by
  decide

/-- Claim C5 (corrected): requesting an out-of-range index does not, in
general, fail with a lookup error: only `|i| ≥ len(self)` raises
(StopIteration, not a LookupError); an index in `[real_length, len)` is
wrapped modulo `real_length`; a negative index with `|i| ≤ real_length`
is wrapped Python-style to `real_length − |i|`; only a negative index
with `real_length < |i| < len` raises IndexError. -/
theorem C5_index_resolution_amended (length real : Nat) (i : Int) :
    (length ≤ i.natAbs → resolveIndex length real i = .error .stopIteration) ∧
    (i.natAbs < length → 0 < real → (real : Int) ≤ i →
      resolveIndex length real i = .ok (i % (real : Int)).toNat) ∧
    (i.natAbs < length → i < 0 → i.natAbs ≤ real →
      resolveIndex length real i = .ok (real - i.natAbs)) ∧
    (i.natAbs < length → i < 0 → real < i.natAbs →
      resolveIndex length real i = .error .indexError) := by
  refine ⟨?_, ?_, ?_, ?_⟩
  · intro h
    unfold resolveIndex
    rw [if_pos h]
  · intro hlen hreal hge
    have hrne : (real : Int) ≠ 0 := by omega
    unfold resolveIndex
    rw [if_neg (by omega)]
    dsimp only
    rw [if_pos hge, if_pos (Int.emod_nonneg i hrne)]
  · intro hlen hneg hle
    unfold resolveIndex
    rw [if_neg (by omega)]
    dsimp only
    rw [if_neg (show ¬((real : Int) ≤ i) by omega), if_neg (show ¬((0 : Int) ≤ i) by omega),
      if_pos (show (0 : Int) ≤ (real : Int) + i by omega)]
    have ht : ((real : Int) + i).toNat = real - i.natAbs := by omega
    rw [ht]
  · intro hlen hneg hgt
    unfold resolveIndex
    rw [if_neg (by omega)]
    dsimp only
    rw [if_neg (show ¬((real : Int) ≤ i) by omega), if_neg (show ¬((0 : Int) ≤ i) by omega),
      if_neg (show ¬((0 : Int) ≤ (real : Int) + i) by omega)]

theorem C5_index_resolution_amended_witness :
    resolveIndex 3 3 5 = .error .stopIteration ∧
    resolveIndex 6 3 4 = .ok 1 ∧
    resolveIndex 3 3 (-2) = .ok 1 ∧
    resolveIndex 6 3 (-5) = .error .indexError :=
  ⟨(C5_index_resolution_amended 3 3 5).1 (by decide),
   (C5_index_resolution_amended 6 3 4).2.1 (by decide) (by decide) (by decide),
   (C5_index_resolution_amended 3 3 (-2)).2.2.1 (by decide) (by decide) (by decide),
   (C5_index_resolution_amended 6 3 (-5)).2.2.2 (by decide) (by decide) (by decide)⟩

/-- Claim C6 (code_bug): with the shared-memory backend a scalar field is
not served from the in-memory ground-truth table.  On a miss, the write
`self.shared_arrays[k][item, :, :, :] = array[...]` indexes the 1-D
process-local buffer with a scalar value and raises IndexError; on a
bitmap hit, the value returned is whatever the uninitialized local buffer
holds (99 here), not the ground-truth value 7.  The disk-backend half of
the claim does hold: its paths serve the ground-truth value. -/
theorem C6_shm_scalar_field_not_served_from_gts :
    load_array srcD (init_cache srcD g0 emptyShm) 0 = .error .indexError ∧
    load_array srcD ⟨[true], [[Val.arr2 Dtype.u8 [[1]]], [Val.scalar 99]]⟩ 0
      = .ok ([Val.arr2 Dtype.u8 [[1]], Val.scalar 99],
          ⟨[true], [[Val.arr2 Dtype.u8 [[1]]], [Val.scalar 99]]⟩) ∧
    srcD.gts 1 0 = Val.scalar 7 ∧ Val.scalar 99 ≠ Val.scalar 7 ∧
    (disk_getitem srcD (disk_init_cache srcD) 0).toOption.map Prod.fst
      = some [Val.arr2 Dtype.u8 [[1]], Val.scalar 7] := by
  decide

/-- Claim C7 (code_bug): `DiskCache.remap` appends `new_key` to
`in_memory_items` unconditionally (the append sits outside the membership
check), so remapping a disk-cached field wrongly adds it to the in-memory
list on the first call and appends a duplicate on every further call:
the operation is not idempotent.  The dataset-side `remap` over the three
bookkeeping dictionaries is idempotent, as the last two conjuncts show. -/
theorem C7_disk_remap_not_idempotent :
    disk_remap [("a", 0)] [] "a" "b" = ([("b", 0)], ["b"]) ∧
    disk_remap [("b", 0)] ["b"] "a" "b" = ([("b", 0)], ["b", "b"]) ∧
    ([("b", 0)], ["b", "b"]) ≠ (([("b", 0)], ["b"]) : List (String × Nat) × List String) ∧
    dataset_remap "a" "b" [("a", 1)] [("a", 2)] [("a", 3)]
      = ([("b", 1)], [("b", 2)], [("b", 3)]) ∧
    dataset_remap "a" "b" [("b", 1)] [("b", 2)] [("b", 3)]
      = ([("b", 1)], [("b", 2)], [("b", 3)]) := by
  decide

/-- A one-item dataset with two cached array fields (a uint8 image and a
packed int16 map), used to exhibit a partial disk-cache state. -/
def srcE : Source :=
  { nb := 1
    sample := fun _ => [Val.arr2 Dtype.u8 [[9]], Val.arr2 Dtype.i16 [[-2]]]
    gts := fun _ _ => Val.scalar 0 }

/-- A partial cache state for `srcE`: field 0's file exists, field 1's is
missing. -/
def stPart : DiskState := ⟨[((0, 0), Val.arr2 Dtype.u8 [[9]])], [false]⟩

/-- Claim C8 (confirmed): an item whose disk-cache files are missing for
some but not all cached fields is treated exactly like a full miss:
`cache_item` recomputes the full pre-cache sample, (re)writes every
cached field's file, marks the item cached, and returns the fresh sample
without error; and the same value and the same per-item files result as
from a run on a state with no files at all. -/
theorem C8_missing_files_treated_as_full_miss (src : Source) (st : DiskState) (item : Nat)
    (hmiss : check_cache src st item = false)
    (hsome : ∃ p, p < src.schema.length ∧ src.fieldMode p ≠ StoreMode.inMemory ∧
      (lookupFile st.files (p, item)).isSome = true) :
    cache_item src st item = .ok (src.sample item,
      ⟨writeFields src item (src.sample item) (List.range src.schema.length) st.files,
        st.is_item_cached.set item true⟩) ∧
    (∀ p, p < src.schema.length → src.fieldMode p ≠ StoreMode.inMemory →
      lookupFile (writeFields src item (src.sample item)
        (List.range src.schema.length) st.files) (p, item)
        = some (encodeStored (src.fieldMode p) ((src.sample item).getD p (Val.scalar 0)))) ∧
    (∃ st2e, cache_item src ⟨[], st.is_item_cached⟩ item = .ok (src.sample item, st2e) ∧
      ∀ p, p < src.schema.length → src.fieldMode p ≠ StoreMode.inMemory →
        lookupFile st2e.files (p, item)
          = some (encodeStored (src.fieldMode p) ((src.sample item).getD p (Val.scalar 0)))) := by
  have hmiss2 : ¬(check_cache src st item = true) := by
    rw [hmiss]
    simp
  refine ⟨?_, ?_, ?_⟩
  · unfold cache_item
    rw [if_neg hmiss2]
  · intro p hp hpm
    rw [writeFields_lookup src item (src.sample item) (List.range src.schema.length)
      st.files p item]
    rw [if_pos ⟨rfl, List.mem_range.mpr hp, hpm⟩]
  · have hmiss3 : ¬(check_cache src ⟨[], st.is_item_cached⟩ item = true) := by
      obtain ⟨p, hp, hpm, -⟩ := hsome
      intro hT
      unfold check_cache at hT
      rw [List.all_eq_true] at hT
      have hTp := hT p (List.mem_range.mpr hp)
      rw [if_neg hpm] at hTp
      exact absurd hTp (by simp [lookupFile])
    unfold cache_item
    rw [if_neg hmiss3]
    refine ⟨_, rfl, ?_⟩
    intro p hp hpm
    rw [writeFields_lookup src item (src.sample item) (List.range src.schema.length)
      [] p item]
    rw [if_pos ⟨rfl, List.mem_range.mpr hp, hpm⟩]

theorem C8_missing_files_treated_as_full_miss_witness :
    cache_item srcE stPart 0 = .ok (srcE.sample 0,
      ⟨writeFields srcE 0 (srcE.sample 0) (List.range srcE.schema.length) stPart.files,
        stPart.is_item_cached.set 0 true⟩) ∧
    (∀ p, p < srcE.schema.length → srcE.fieldMode p ≠ StoreMode.inMemory →
      lookupFile (writeFields srcE 0 (srcE.sample 0)
        (List.range srcE.schema.length) stPart.files) (p, 0)
        = some (encodeStored (srcE.fieldMode p) ((srcE.sample 0).getD p (Val.scalar 0)))) ∧
    (∃ st2e, cache_item srcE ⟨[], stPart.is_item_cached⟩ 0 = .ok (srcE.sample 0, st2e) ∧
      ∀ p, p < srcE.schema.length → srcE.fieldMode p ≠ StoreMode.inMemory →
        lookupFile st2e.files (p, 0)
          = some (encodeStored (srcE.fieldMode p) ((srcE.sample 0).getD p (Val.scalar 0)))) :=
  C8_missing_files_treated_as_full_miss srcE stPart 0 (by decide)
    ⟨0, by decide, by decide, by decide⟩

/-- Claim C9 (code_bug): `__del__` for a creator process closes and then
unlinks every shared-memory handle, but a non-creator process performs no
teardown action at all — in particular it does not close (detach) its
handles, because `_is_first_process` appears in the outer guard. -/
theorem C9_non_creator_performs_no_teardown :
    dataset_del ⟨true, true, true, [0, 1]⟩ =
      [ShmAction.close 0, ShmAction.close 1, ShmAction.unlink 0, ShmAction.unlink 1] ∧
    dataset_del ⟨true, true, false, [0, 1]⟩ = [] := by
  decide

/-- Claim C10 (confirmed): constructing an `AbstractImageDataset` (attrs
runs `_cache_option_validator` at construction) with `use_cache = True`
and `cache_option = None` fails with ValueError; valid configurations are
accepted. -/
theorem C10_cache_option_validator_rejects :
    mk_dataset true none = .error .valueError ∧
    mk_dataset true (some CacheOpt.memory) = .ok (true, some CacheOpt.memory) ∧
    mk_dataset false none = .ok (false, none) := by
  decide

end NNTools
